import Mathlib

/-!
Verification of the noble-cctp-relayer core against its specification.

The definitions below are a shallow embedding of the Go source:
* `cmd/process.go` — the processor worker (`StartProcessor` loop body),
  the route filter `FilterDisabledCCTPRoutes`, the destination-caller
  filter `filterInvalidDestinationCallers`, and the HTTP handler
  `getTxByHash`;
* `ethereum/listener.go` — `consumeHistroy`, `consumeStream`, and the
  chunked backfill of `getAndConsumeHistory` /
  `startListenerRoutines`;
* `noble/message_state.go` — `txToMessageState`.

External collaborators (the attestation HTTP client, base64 decoding,
keccak-256, the CCTP header parser `types.Message.Parse`, and each
chain adapter's `IsDestinationCaller` / `Broadcast`) are parameters of
the model.  Machine integers are `Nat` with explicit `% 2^64` where Go
uint64 wraparound matters.  Go panics are modelled as explicit
outcomes.
-/

/-- CCTP domain identifier (Go `types.Domain`, a uint32). -/
abbrev Domain := Nat

/-- Message status (Go `types` package status strings). -/
inductive Status where
  | created
  | pending
  | filtered
  | attested
  | complete
deriving DecidableEq, Repr

/-- Go `types.MessageState`: a parsed CCTP message enriched with
relayer-tracking fields.  Timestamps are abstract `Nat` instants. -/
structure MessageState where
  irisLookupId : String
  status : Status
  sourceDomain : Domain
  destDomain : Domain
  nonce : Nat
  sourceTxHash : String
  msgSentBytes : List Nat
  destinationCaller : List Nat
  attestation : String
  created : Nat
  updated : Nat
deriving DecidableEq, Repr

/-- Go `types.TxState`: a source tx hash with all of its messages. -/
structure TxState where
  txHash : String
  msgs : List MessageState
deriving DecidableEq, Repr

/-- Response of the Iris attestation service
(Go `circle.CheckAttestation` result). -/
structure AttestationResponse where
  status : String
  attestation : String
deriving DecidableEq, Repr

/-- The capabilities of a registered chain adapter that the processor
uses (Go `types.Chain` interface): the destination-caller check and
the outcome of `Broadcast` (`true` models a nil error). -/
structure Chain where
  isDestinationCaller : List Nat → Bool
  broadcastOk : List MessageState → Bool

/-- Association-list lookup, modelling a Go map read (`m[k]` with the
`ok` flag given by `Option`). -/
def lookupAssoc {α : Type} [DecidableEq α] {β : Type} (l : List (α × β)) (k : α) : Option β :=
  match l with
  | [] => none
  | (k0, v) :: rest => if k0 = k then some v else lookupAssoc rest k

/-- Association-list insert-or-update, modelling a Go map write. -/
def insertAssoc {α : Type} [DecidableEq α] {β : Type} (l : List (α × β)) (k : α) (v : β) :
    List (α × β) :=
  match l with
  | [] => [(k, v)]
  | (k0, v0) :: rest =>
      if k0 = k then (k0, v) :: rest else (k0, v0) :: insertAssoc rest k v

/-- Go `cmd.FilterDisabledCCTPRoutes`: true when relaying from the
message's source domain to its destination domain is not enabled. -/
def FilterDisabledCCTPRoutes (enabledRoutes : List (Domain × List Domain))
    (msg : MessageState) : Bool :=
  match lookupAssoc enabledRoutes msg.sourceDomain with
  | none => true
  | some val => !(val.contains msg.destDomain)

/-- Go `cmd.filterInvalidDestinationCallers`: true when no chain is
registered for the destination domain, or the registered chain's
minter is not the message's destination caller. -/
def filterInvalidDestinationCallers (registeredDomains : List (Domain × Chain))
    (msg : MessageState) : Bool :=
  match lookupAssoc registeredDomains msg.destDomain with
  | none => true
  | some chain => !(chain.isDestinationCaller msg.destinationCaller)

/-- Outcome of handling one message inside the processor loop:
the updated message, whether this message set `requeue`, whether
`CheckAttestation` was invoked for it, and the destination domain it
was appended to in `broadcastMsgs` (if any). -/
structure MsgOutcome where
  msg : MessageState
  requeueSet : Bool
  attestCalled : Bool
  appended : Option Domain
deriving DecidableEq, Repr

/-- The attestation step of `cmd.StartProcessor` (the
`if msg.Status == types.Created || msg.Status == types.Pending` block):
polls the attestation client and advances the message accordingly. -/
def attestStep (attest : MessageState → Option AttestationResponse) (now : Nat)
    (msg : MessageState) : MsgOutcome :=
  if msg.status = Status.created ∨ msg.status = Status.pending then
    match attest msg with
    | some response =>
        if msg.status = Status.created ∧ response.status = "pending_confirmations" then
          ⟨{ msg with status := Status.pending, updated := now }, true, true, none⟩
        else if response.status = "pending_confirmations" then
          ⟨msg, true, true, none⟩
        else if response.status = "complete" then
          ⟨{ msg with
              status := Status.attested
              attestation := response.attestation
              updated := now }, false, true, some msg.destDomain⟩
        else ⟨msg, false, true, none⟩
    | none => ⟨msg, true, true, none⟩
  else ⟨msg, false, false, none⟩

/-- One iteration of the per-message loop of `cmd.StartProcessor`
(filter step then attestation step). -/
def processMsg (routes : List (Domain × List Domain)) (registered : List (Domain × Chain))
    (attest : MessageState → Option AttestationResponse) (now : Nat)
    (msg0 : MessageState) : MsgOutcome :=
  let msg :=
    if FilterDisabledCCTPRoutes routes msg0 || filterInvalidDestinationCallers registered msg0
    then { msg0 with status := Status.filtered }
    else msg0
  attestStep attest now msg

/-- Adds index `i` to the batch of destination domain `d`, preserving
first-insertion order (Go `broadcastMsgs[d] = append(broadcastMsgs[d], msg)`). -/
def addToGroup (g : List (Domain × List Nat)) (d : Domain) (i : Nat) :
    List (Domain × List Nat) :=
  match g with
  | [] => [(d, [i])]
  | (d0, is) :: rest =>
      if d0 = d then (d0, is ++ [i]) :: rest else (d0, is) :: addToGroup rest d i

/-- Accumulator of the per-message loop. -/
structure LoopAcc where
  msgs : List MessageState
  requeue : Bool
  attestIdxs : List Nat
  groups : List (Domain × List Nat)

/-- The per-message loop of `cmd.StartProcessor`
(`for _, msg := range tx.Msgs`), threading the requeue flag, the list
of messages attested, and the `broadcastMsgs` batches (as indices into
the message list). -/
def msgLoop (routes : List (Domain × List Domain)) (registered : List (Domain × Chain))
    (attest : MessageState → Option AttestationResponse) (now : Nat) :
    Nat → LoopAcc → List MessageState → LoopAcc
  | _, acc, [] => acc
  | i, acc, m :: rest =>
      let o := processMsg routes registered attest now m
      msgLoop routes registered attest now (i + 1)
        { msgs := acc.msgs ++ [o.msg]
          requeue := acc.requeue || o.requeueSet
          attestIdxs := acc.attestIdxs ++ (if o.attestCalled then [i] else [])
          groups :=
            match o.appended with
            | none => acc.groups
            | some d => addToGroup acc.groups d i }
        rest

/-- Marks the messages at positions `idxs` Complete with `Updated = now`
(the post-broadcast status update of `cmd.StartProcessor`). -/
def setComplete (now : Nat) (idxs : List Nat) (msgs : List MessageState) :
    List MessageState :=
  ((List.range msgs.length).zip msgs).map fun p =>
    if idxs.contains p.1 then { p.2 with status := Status.complete, updated := now } else p.2

/-- Accumulator of the broadcast loop. -/
structure BAcc where
  msgs : List MessageState
  requeue : Bool
  calls : List (Domain × List Nat)

/-- The broadcast loop of `cmd.StartProcessor`
(`for domain, msgs := range broadcastMsgs`): skips unregistered
domains, marks a batch Complete on success, sets requeue on error. -/
def broadcastLoop (registered : List (Domain × Chain)) (now : Nat) :
    List (Domain × List Nat) → BAcc → BAcc
  | [], acc => acc
  | (d, idxs) :: rest, acc =>
      match lookupAssoc registered d with
      | none => broadcastLoop registered now rest acc
      | some chain =>
          let batch := idxs.filterMap fun i => acc.msgs[i]?
          if chain.broadcastOk batch then
            broadcastLoop registered now rest
              ⟨setComplete now idxs acc.msgs, acc.requeue, acc.calls ++ [(d, idxs)]⟩
          else
            broadcastLoop registered now rest
              ⟨acc.msgs, true, acc.calls ++ [(d, idxs)]⟩

/-- Result of one full pass of the processor worker over a dequeued
TxState. -/
structure PassResult where
  store : List (String × TxState)
  tx : TxState
  requeue : Bool
  attestIdxs : List Nat
  broadcastCalls : List (Domain × List Nat)

/-- One iteration of the `for` loop of `cmd.StartProcessor`: dequeue a
TxState, load-or-store it in the State map (initialising statuses to
Created on first sight), run the per-message loop, then the broadcast
loop, and report whether the TxState is requeued. -/
def processorPass (routes : List (Domain × List Domain))
    (registered : List (Domain × Chain))
    (attest : MessageState → Option AttestationResponse) (now : Nat)
    (store : List (String × TxState)) (dequeued : TxState) : PassResult :=
  let tx : TxState :=
    match lookupAssoc store dequeued.txHash with
    | some tx0 => tx0
    | none => { dequeued with msgs := dequeued.msgs.map (fun m => { m with status := Status.created }) }
  let acc := msgLoop routes registered attest now 0 ⟨[], false, [], []⟩ tx.msgs
  let b := broadcastLoop registered now acc.groups ⟨acc.msgs, acc.requeue, []⟩
  let tx' := { tx with msgs := b.msgs }
  { store := insertAssoc store dequeued.txHash tx'
    tx := tx'
    requeue := b.requeue
    attestIdxs := acc.attestIdxs
    broadcastCalls := b.calls }

/-- Iterated processor passes over the same TxState (requeue or
re-delivery), with a fresh attestation oracle and clock per pass. -/
def iteratePasses (routes : List (Domain × List Domain))
    (registered : List (Domain × Chain))
    (attests : Nat → MessageState → Option AttestationResponse) (nows : Nat → Nat) :
    Nat → List (String × TxState) × TxState → List (String × TxState) × TxState
  | 0, st => st
  | n + 1, st =>
      let st' := iteratePasses routes registered attests nows n st
      let r := processorPass routes registered (attests n) (nows n) st'.1 st'.2
      (r.store, r.tx)

/-- An EVM log as the listener sees it (`ethtypes.Log`); only the tx
hash and opaque payload matter to the grouping logic. -/
structure EvmLog where
  txHash : String
  data : List Nat
deriving DecidableEq, Repr

/-- Go `ethereum.consumeHistroy`: parses each historical log
(`types.EvmLogToMessageState`, a parameter here), skips logs that fail
to parse, and enqueues each parsed message as its own single-message
TxState. -/
def consumeHistroy (parse : EvmLog → Option MessageState) :
    List EvmLog → List TxState
  | [] => []
  | l :: rest =>
      match parse l with
      | none => consumeHistroy parse rest
      | some m => ⟨m.sourceTxHash, [m]⟩ :: consumeHistroy parse rest

/-- Go `ethereum.consumeStream`: the `select` loop consuming the live
websocket stream.  The schedule is a list of observations: `some l`
when a log is ready on the stream channel, `none` when the `default`
branch fires (idle stream).  Returns the TxStates sent to the
processing queue and the still-buffered TxState when the schedule
ends. -/
def consumeStreamGo (parse : EvmLog → Option MessageState)
    (txState : Option TxState) (queue : List TxState) :
    List (Option EvmLog) → List TxState × Option TxState
  | [] => (queue, txState)
  | item :: rest =>
      match item with
      | some streamLog =>
          match parse streamLog with
          | none => consumeStreamGo parse txState queue rest
          | some parsedMsg =>
              match txState with
              | none =>
                  consumeStreamGo parse (some ⟨parsedMsg.sourceTxHash, [parsedMsg]⟩) queue rest
              | some ts =>
                  if parsedMsg.sourceTxHash ≠ ts.txHash then
                    consumeStreamGo parse (some ⟨parsedMsg.sourceTxHash, [parsedMsg]⟩)
                      (queue ++ [ts]) rest
                  else
                    consumeStreamGo parse (some { ts with msgs := ts.msgs ++ [parsedMsg] })
                      queue rest
      | none =>
          match txState with
          | some ts => consumeStreamGo parse none (queue ++ [ts]) rest
          | none => consumeStreamGo parse none queue rest

/-- Modulus of Go's uint64 arithmetic. -/
def U64 : Nat := 2 ^ 64

/-- Go `ethereum.getAndConsumeHistory` chunk size. -/
def chunkSize : Nat := 100

/-- The `(FromBlock, ToBlock)` pairs of the chunked history queries
issued by Go `ethereum.getAndConsumeHistory(start, end)`
(`for start < end { toBlock := start + chunkSize; if toBlock > end
{ toBlock = end }; ...; start += chunkSize }`), with uint64 wraparound
made explicit.  `fuel` bounds the number of loop iterations modelled;
queries present at any fuel are really issued by the loop. -/
def historyQueries : Nat → Nat → Nat → List (Nat × Nat)
  | 0, _, _ => []
  | fuel + 1, start, endBlock =>
      if start < endBlock then
        let toBlock0 := (start + chunkSize) % U64
        let toBlock := if toBlock0 > endBlock then endBlock else toBlock0
        (start, toBlock) :: historyQueries fuel ((start + chunkSize) % U64) endBlock
      else []

/-- The backfill range computed by Go `ethereum.startListenerRoutines`
(lines 81–88): `start := latestBlock; if e.startBlock != 0 { start =
e.startBlock }; startLookback := start - e.lookbackPeriod` with uint64
subtraction, paired with `latestBlock` as the query end. -/
def backfillRange (startBlock latestBlock lookbackPeriod : Nat) : Nat × Nat :=
  let start := if startBlock ≠ 0 then startBlock else latestBlock
  (((start + U64) - lookbackPeriod) % U64, latestBlock)

/-- Whether block `b` is inside some issued query range (FromBlock and
ToBlock are inclusive in an EVM `FilterQuery`). -/
def coversBlock (qs : List (Nat × Nat)) (b : Nat) : Bool :=
  qs.any fun q => q.1 ≤ b && b ≤ q.2

/-- A key/value attribute of a tendermint event
(`abci.EventAttribute`). -/
structure EventAttr where
  key : String
  value : String
deriving DecidableEq, Repr

/-- A tendermint event of a Noble transaction (`abci.Event`). -/
structure TxEvent where
  type : String
  attributes : List EventAttr
deriving DecidableEq, Repr

/-- The fields of `ctypes.ResultTx.TxResult` that
`noble.txToMessageState` reads. -/
structure ExecTxResult where
  code : Nat
  events : List TxEvent
deriving DecidableEq, Repr

/-- The fields of a CometBFT `ctypes.ResultTx` that
`noble.txToMessageState` reads. -/
structure ResultTx where
  hash : String
  txResult : ExecTxResult
deriving DecidableEq, Repr

/-- The CCTP header fields produced by `types.Message.Parse`
(a parameter of the model; the parser itself lives outside the
listener). -/
structure Message where
  sourceDomain : Nat
  destinationDomain : Nat
  nonce : Nat
  destinationCaller : List Nat
deriving DecidableEq, Repr

/-- One lowercase hexadecimal digit (Go `encoding/hex` alphabet). -/
def hexDigit (n : Nat) : Char :=
  if n < 10 then Char.ofNat (48 + n) else Char.ofNat (87 + n)

/-- Go `hex.EncodeToString`: lowercase hex of a byte slice. -/
def hexEncode (bs : List Nat) : String :=
  String.mk (List.flatten (bs.map fun b => [hexDigit (b / 16 % 16), hexDigit (b % 16)]))

/-- Outcome of Go `noble.txToMessageState`: a runtime panic, an error
return (`nil, err`), or the produced MessageStates. -/
inductive TxOutcome where
  | panicked
  | errored
  | ok (msgs : List MessageState)
deriving DecidableEq, Repr

/-- The attribute loop of `noble.txToMessageState` for one
`circle.cctp.v1.MessageSent` event.  For each attribute with key
`"message"` the code slices `attr.Value[1 : len(attr.Value)-1]`
(panics — `none` — when the value is shorter than 2), base64-decodes
it, hashes the raw bytes with keccak-256 for the IrisLookupId, parses
the CCTP header, and on success appends a Created MessageState;
decode and parse failures skip the attribute.  Returns the
accumulated messages and the `parsed` flag. -/
def processAttrs (b64decode : String → Option (List Nat))
    (parse : List Nat → Option Message) (keccak : List Nat → List Nat)
    (hash : String) (now : Nat) :
    List EventAttr → List MessageState × Bool → Option (List MessageState × Bool)
  | [], acc => some acc
  | attr :: rest, acc =>
      if attr.key = "message" then
        if attr.value.length < 2 then none
        else
          let encoded := String.mk (attr.value.toList.drop 1).dropLast
          match b64decode encoded with
          | none => processAttrs b64decode parse keccak hash now rest acc
          | some rawMessageSentBytes =>
              let hashedHexStr := hexEncode (keccak rawMessageSentBytes)
              match parse rawMessageSentBytes with
              | none => processAttrs b64decode parse keccak hash now rest acc
              | some msg =>
                  processAttrs b64decode parse keccak hash now rest
                    (acc.1 ++ [{ irisLookupId := hashedHexStr
                                 status := Status.created
                                 sourceDomain := msg.sourceDomain
                                 destDomain := msg.destinationDomain
                                 nonce := msg.nonce
                                 sourceTxHash := hash
                                 msgSentBytes := rawMessageSentBytes
                                 destinationCaller := msg.destinationCaller
                                 attestation := ""
                                 created := now
                                 updated := now }], true)
      else processAttrs b64decode parse keccak hash now rest acc

/-- The event loop of `noble.txToMessageState`: for each event of type
`circle.cctp.v1.MessageSent`, runs the attribute loop; if no attribute
of the event parsed, the whole transaction returns an error. -/
def processEvents (b64decode : String → Option (List Nat))
    (parse : List Nat → Option Message) (keccak : List Nat → List Nat)
    (hash : String) (now : Nat) :
    List TxEvent → List MessageState → TxOutcome
  | [], msgs => TxOutcome.ok msgs
  | e :: rest, msgs =>
      if e.type = "circle.cctp.v1.MessageSent" then
        match processAttrs b64decode parse keccak hash now e.attributes ([], false) with
        | none => TxOutcome.panicked
        | some (newMsgs, parsed) =>
            if parsed then processEvents b64decode parse keccak hash now rest (msgs ++ newMsgs)
            else TxOutcome.errored
      else processEvents b64decode parse keccak hash now rest msgs

/-- Go `noble.txToMessageState`: transactions with nonzero result code
produce no MessageStates and no error; otherwise the events are
scanned. -/
def txToMessageState (b64decode : String → Option (List Nat))
    (parse : List Nat → Option Message) (keccak : List Nat → List Nat)
    (now : Nat) (tx : ResultTx) : TxOutcome :=
  if tx.txResult.code ≠ 0 then TxOutcome.ok []
  else processEvents b64decode parse keccak tx.hash now tx.txResult.events []

/-- Decimal value of a digit string; `none` if any character is not a
digit. -/
def decValAux : List Char → Nat → Option Nat
  | [], acc => some acc
  | c :: rest, acc =>
      if '0' ≤ c ∧ c ≤ '9' then decValAux rest (acc * 10 + (c.toNat - 48)) else none

/-- Go `strconv.ParseInt(s, 10, 0)`: returns the parsed int64 and an
error flag.  Syntax errors yield `(0, true)`; range errors yield the
clamped extreme and `true` (the Go handler keeps using the returned
value even when the error flag is set). -/
def parseGoInt (s : String) : Int × Bool :=
  match s.toList with
  | [] => (0, true)
  | c :: rest =>
      let signDigits : Bool × List Char :=
        if c = '-' then (true, rest)
        else if c = '+' then (false, rest)
        else (false, c :: rest)
      match signDigits.2 with
      | [] => (0, true)
      | _ =>
          match decValAux signDigits.2 0 with
          | none => (0, true)
          | some v =>
              if signDigits.1 then
                if v > 2 ^ 63 then (-(2 ^ 63 : Int), true) else (-(v : Int), false)
              else
                if v ≥ 2 ^ 63 then ((2 ^ 63 : Int) - 1, true) else ((v : Int), false)

/-- Go `types.Domain(i)` for an int64 `i`: conversion to uint32. -/
def domainOfInt (i : Int) : Domain := (i % (2 ^ 32 : Int)).toNat

/-- One response written by the HTTP handler (`c.JSON(...)`). -/
inductive HttpWrite where
  | okMsgs (msgs : List MessageState)
  | notFound
  | badRequest
deriving DecidableEq, Repr

/-- Outcome of one invocation of the HTTP handler: either it runs to
completion having written the given responses, or it panics after
having written them (a nil-pointer dereference inside the handler). -/
inductive HandlerOutcome where
  | panicked (written : List HttpWrite)
  | responded (written : List HttpWrite)
deriving DecidableEq, Repr

/-- Go `cmd.getTxByHash` (the `GET /tx/:txHash` handler of
`cmd/process.go`).  `domainQ` is `c.Query("domain")` (empty string
when the parameter is absent).  The Go condition is
`ok && domain == "" || (domain != "" && tx.Msgs[0].SourceDomain ==
types.Domain(domainInt))`; when the tx hash is absent, `tx` is the nil
pointer returned by `State.Load`, so evaluating `tx.Msgs[0]` panics.
A parse failure of a nonempty `domain` writes a 400 response but does
not return. -/
def getTxByHash (store : List (String × TxState)) (txHash : String)
    (domainQ : String) : HandlerOutcome :=
  let parsed := parseGoInt domainQ
  let w0 : List HttpWrite := if domainQ ≠ "" ∧ parsed.2 then [HttpWrite.badRequest] else []
  let found := lookupAssoc store txHash
  if found.isSome ∧ domainQ = "" then
    match found with
    | some tx => HandlerOutcome.responded (w0 ++ [HttpWrite.okMsgs tx.msgs])
    | none => HandlerOutcome.responded (w0 ++ [HttpWrite.notFound])
  else if domainQ ≠ "" then
    match found with
    | none => HandlerOutcome.panicked w0
    | some tx =>
        match tx.msgs with
        | [] => HandlerOutcome.panicked w0
        | m0 :: _ =>
            if m0.sourceDomain = domainOfInt parsed.1 then
              HandlerOutcome.responded (w0 ++ [HttpWrite.okMsgs tx.msgs])
            else HandlerOutcome.responded (w0 ++ [HttpWrite.notFound])
  else HandlerOutcome.responded (w0 ++ [HttpWrite.notFound])

/-- A base MessageState used by the concrete test fixtures below. -/
def msgBase : MessageState :=
  { irisLookupId := ""
    status := Status.created
    sourceDomain := 0
    destDomain := 4
    nonce := 0
    sourceTxHash := ""
    msgSentBytes := []
    destinationCaller := []
    attestation := ""
    created := 0
    updated := 0 }

/-- Attestation oracle that always fails (transport error → nil). -/
def attestNil : MessageState → Option AttestationResponse := fun _ => none

/-- A chain adapter accepting every caller and every broadcast. -/
def chainOk : Chain := ⟨fun _ => true, fun _ => true⟩

/-- Enabled routes 0 → 4 (the spec's "disabled route" scenario). -/
def routesEth2Noble : List (Domain × List Domain) := [(0, [4])]

/-- Registry with only domain 4. -/
def registeredNoble : List (Domain × Chain) := [(4, chainOk)]

/-- An Attested message (broadcast failed on an earlier pass). -/
def msgAttested : MessageState :=
  { msgBase with
      irisLookupId := "aa"
      status := Status.attested
      nonce := 42
      sourceTxHash := "0xabc"
      attestation := "0xAB" }

/-- The requeued TxState holding `msgAttested`. -/
def txAttested : TxState := ⟨"0xabc", [msgAttested]⟩

/-- The State map after the first pass stored `txAttested`. -/
def storeAttested : List (String × TxState) := [("0xabc", txAttested)]

/-- A Created message on the enabled 0 → 4 route. -/
def msgCreated : MessageState :=
  { msgBase with irisLookupId := "bb", sourceTxHash := "0xdef" }

/-- Attestation oracle answering `complete` with a fixed blob. -/
def attestComplete : MessageState → Option AttestationResponse :=
  fun _ => some ⟨"complete", "0xCAFE"⟩

/-- A message on the disabled route 0 → 5. -/
def msgWrongRoute : MessageState :=
  { msgBase with irisLookupId := "cc", destDomain := 5, sourceTxHash := "0x123" }

/-- The TxState delivering `msgWrongRoute`. -/
def txWrongRoute : TxState := ⟨"0x123", [msgWrongRoute]⟩

/-- Base64 decoder fixture: decodes only the body `"G"`. -/
def b64G : String → Option (List Nat) := fun s => if s = "G" then some [1] else none

/-- CCTP header parser fixture: parses only the byte string `[1]`. -/
def parseOnly1 : List Nat → Option Message :=
  fun bs => if bs = [1] then some ⟨0, 4, 7, [9]⟩ else none

/-- Keccak fixture (any function of the bytes works for the claims). -/
def keccakFix : List Nat → List Nat := fun bs => bs ++ [2]

/-- A Noble tx whose first MessageSent event parses and whose second
MessageSent event has an undecodable message attribute. -/
def txTwoEvents : ResultTx :=
  ⟨"nobletx", ⟨0, [⟨"circle.cctp.v1.MessageSent", [⟨"message", "\"G\""⟩]⟩,
                   ⟨"circle.cctp.v1.MessageSent", [⟨"message", "\"B\""⟩]⟩]⟩⟩

/-- The same tx with only the first (parseable) event. -/
def txOneEvent : ResultTx :=
  ⟨"nobletx", ⟨0, [⟨"circle.cctp.v1.MessageSent", [⟨"message", "\"G\""⟩]⟩]⟩⟩

/-- The MessageState that the parseable event yields. -/
def msgNobleG : MessageState :=
  { irisLookupId := hexEncode (keccakFix [1])
    status := Status.created
    sourceDomain := 0
    destDomain := 4
    nonce := 7
    sourceTxHash := "nobletx"
    msgSentBytes := [1]
    destinationCaller := [9]
    attestation := ""
    created := 0
    updated := 0 }

/-- A Noble tx with an empty `"message"` attribute value: the
quote-stripping slice `attr.Value[1 : len(attr.Value)-1]` is out of
range. -/
def txEmptyAttr : ResultTx :=
  ⟨"panictx", ⟨0, [⟨"circle.cctp.v1.MessageSent", [⟨"message", ""⟩]⟩]⟩⟩

/-- A base64 decoder that always fails. -/
def b64Nil : String → Option (List Nat) := fun _ => none

/-- A CCTP header parser that always fails. -/
def parseNil : List Nat → Option Message := fun _ => none

/-- EVM log parser fixture: every log parses, keyed by its tx hash,
with the log's payload length as the nonce (so sibling logs of one tx
give distinct messages). -/
def parseEvmFix : EvmLog → Option MessageState :=
  fun l => some { msgBase with sourceTxHash := l.txHash, nonce := l.data.length }

/-- Two historical logs of the same source transaction. -/
def logHistA : EvmLog := ⟨"0xsametx", []⟩

/-- Second log of the same source transaction. -/
def logHistB : EvmLog := ⟨"0xsametx", [5]⟩

/-- An EVM log whose parse fails under `parseEvmSkipBad`. -/
def logBad : EvmLog := ⟨"badlog", [7]⟩

/-- EVM log parser that fails on `logBad` and succeeds elsewhere. -/
def parseEvmSkipBad : EvmLog → Option MessageState :=
  fun l => if l.txHash = "badlog" then none
           else some { msgBase with sourceTxHash := l.txHash, nonce := l.data.length }

/-- A `"message"` attribute whose body fails base64 decoding under
`b64G`. -/
def attrBadB64 : EventAttr := ⟨"message", "\"B\""⟩

/-- A `"message"` attribute whose body decodes and parses. -/
def attrGoodG : EventAttr := ⟨"message", "\"G\""⟩

/-- The MessageState parsed from `logHistA` by `parseEvmFix`. -/
def mHistA : MessageState := { msgBase with sourceTxHash := "0xsametx", nonce := 0 }

/-- The MessageState parsed from `logHistB` by `parseEvmFix`. -/
def mHistB : MessageState := { msgBase with sourceTxHash := "0xsametx", nonce := 1 }

theorem attestStep_skip (attest : MessageState → Option AttestationResponse) (now : Nat)
    (msg : MessageState)
    (h : ¬(msg.status = Status.created ∨ msg.status = Status.pending)) :
    attestStep attest now msg = ⟨msg, false, false, none⟩ := by
  simp [attestStep, h]

theorem processMsg_filterTrue (routes : List (Domain × List Domain))
    (registered : List (Domain × Chain))
    (attest : MessageState → Option AttestationResponse) (now : Nat) (m : MessageState)
    (hf : (FilterDisabledCCTPRoutes routes m || filterInvalidDestinationCallers registered m) = true) :
    processMsg routes registered attest now m =
      ⟨{ m with status := Status.filtered }, false, false, none⟩ := by
  simp [processMsg, hf, attestStep]

theorem processMsg_attested (routes : List (Domain × List Domain))
    (registered : List (Domain × Chain))
    (attest : MessageState → Option AttestationResponse) (now : Nat) (m : MessageState)
    (h : m.status = Status.attested) :
    (processMsg routes registered attest now m).requeueSet = false ∧
    (processMsg routes registered attest now m).attestCalled = false ∧
    (processMsg routes registered attest now m).appended = none ∧
    (processMsg routes registered attest now m).msg.status ≠ Status.complete := by
  by_cases hf :
      (FilterDisabledCCTPRoutes routes m || filterInvalidDestinationCallers registered m) = true
  · simp [processMsg, hf, attestStep]
  · simp [processMsg, hf, attestStep, h]

theorem processMsg_filtered_absorbing (routes : List (Domain × List Domain))
    (registered : List (Domain × Chain))
    (attest : MessageState → Option AttestationResponse) (now : Nat) (m : MessageState)
    (h : m.status = Status.filtered) :
    (processMsg routes registered attest now m).msg.status = Status.filtered ∧
    (processMsg routes registered attest now m).requeueSet = false ∧
    (processMsg routes registered attest now m).attestCalled = false ∧
    (processMsg routes registered attest now m).appended = none := by
  by_cases hf :
      (FilterDisabledCCTPRoutes routes m || filterInvalidDestinationCallers registered m) = true
  · simp [processMsg, hf, attestStep]
  · simp [processMsg, hf, attestStep, h]

/-- C2: one attestation step of the processor on a Created or Pending
message follows the spec's case analysis: `pending_confirmations` on a
Created message moves it to Pending and sets requeue;
`pending_confirmations` on a Pending message keeps it Pending and sets
requeue; `complete` moves it to Attested, stores the attestation blob,
and appends it to the broadcast batch of its destination domain; a nil
response leaves the message unchanged and sets requeue. -/
theorem C2_attest_step_cases (attest : MessageState → Option AttestationResponse)
    (now : Nat) (msg : MessageState) (r : AttestationResponse)
    (h : msg.status = Status.created ∨ msg.status = Status.pending) :
    (attest msg = some r → r.status = "pending_confirmations" → msg.status = Status.created →
      attestStep attest now msg =
        ⟨{ msg with status := Status.pending, updated := now }, true, true, none⟩) ∧
    (attest msg = some r → r.status = "pending_confirmations" → msg.status = Status.pending →
      attestStep attest now msg = ⟨msg, true, true, none⟩) ∧
    (attest msg = some r → r.status = "complete" →
      attestStep attest now msg =
        ⟨{ msg with
            status := Status.attested
            attestation := r.attestation
            updated := now }, false, true, some msg.destDomain⟩) ∧
    (attest msg = none → attestStep attest now msg = ⟨msg, true, true, none⟩) := by
  refine ⟨?_, ?_, ?_, ?_⟩
  · intro ha hr hst
    simp [attestStep, ha, hr, hst]
  · intro ha hr hst
    simp [attestStep, ha, hr, hst]
  · intro ha hr
    have hne : ("complete" : String) ≠ "pending_confirmations" := by decide
    rcases h with hst | hst <;> simp [attestStep, ha, hr, hst, hne]
  · intro ha
    simp [attestStep, ha, h]

theorem C2_attest_step_cases_witness :
    (msgCreated.status = Status.created ∨ msgCreated.status = Status.pending) ∧
    attestStep attestComplete 3 msgCreated =
      ⟨{ msgCreated with
          status := Status.attested
          attestation := "0xCAFE"
          updated := 3 }, false, true, some 4⟩ := by
  refine ⟨Or.inl rfl, ?_⟩
  have h := (C2_attest_step_cases attestComplete 3 msgCreated ⟨"complete", "0xCAFE"⟩
    (Or.inl rfl)).2.2.1 rfl rfl
  simpa using h

/-- C9: a message whose destination domain has no registered chain
adapter is caught by `filterInvalidDestinationCallers`, so the
processor marks it Filtered without requeueing it or adding it to a
broadcast batch, and Filtered is absorbing under further processing. -/
theorem C9_unregistered_domain_filtered (routes : List (Domain × List Domain))
    (registered : List (Domain × Chain))
    (attest : MessageState → Option AttestationResponse) (now : Nat) (m : MessageState)
    (h : lookupAssoc registered m.destDomain = none) :
    filterInvalidDestinationCallers registered m = true ∧
    (processMsg routes registered attest now m).msg.status = Status.filtered ∧
    (processMsg routes registered attest now m).requeueSet = false ∧
    (processMsg routes registered attest now m).appended = none ∧
    (∀ (attest2 : MessageState → Option AttestationResponse) (now2 : Nat) (m2 : MessageState),
      m2.status = Status.filtered →
      (processMsg routes registered attest2 now2 m2).msg.status = Status.filtered) := by
  have hfic : filterInvalidDestinationCallers registered m = true := by
    simp [filterInvalidDestinationCallers, h]
  have hor :
      (FilterDisabledCCTPRoutes routes m || filterInvalidDestinationCallers registered m) = true := by
    simp [hfic]
  have hp := processMsg_filterTrue routes registered attest now m hor
  refine ⟨hfic, ?_, ?_, ?_, ?_⟩
  · simp [hp]
  · simp [hp]
  · simp [hp]
  · intro attest2 now2 m2 hm2
    exact (processMsg_filtered_absorbing routes registered attest2 now2 m2 hm2).1

theorem C9_unregistered_domain_filtered_witness :
    lookupAssoc registeredNoble msgWrongRoute.destDomain = none ∧
    (processMsg routesEth2Noble registeredNoble attestNil 0 msgWrongRoute).msg.status =
      Status.filtered ∧
    (processMsg routesEth2Noble registeredNoble attestNil 0 msgWrongRoute).requeueSet = false := by
  have h : lookupAssoc registeredNoble msgWrongRoute.destDomain = none := rfl
  have hc := C9_unregistered_domain_filtered routesEth2Noble registeredNoble attestNil 0
    msgWrongRoute h
  exact ⟨h, hc.2.1, hc.2.2.1⟩

theorem broadcastLoop_nil (registered : List (Domain × Chain)) (now : Nat) (acc : BAcc) :
    broadcastLoop registered now [] acc = acc := rfl

theorem msgLoop_inert (routes : List (Domain × List Domain))
    (registered : List (Domain × Chain))
    (attest : MessageState → Option AttestationResponse) (now : Nat) :
    ∀ (msgs : List MessageState) (i : Nat) (acc : LoopAcc),
      (∀ m ∈ msgs, (processMsg routes registered attest now m).requeueSet = false ∧
        (processMsg routes registered attest now m).attestCalled = false ∧
        (processMsg routes registered attest now m).appended = none) →
      (msgLoop routes registered attest now i acc msgs).requeue = acc.requeue ∧
      (msgLoop routes registered attest now i acc msgs).attestIdxs = acc.attestIdxs ∧
      (msgLoop routes registered attest now i acc msgs).groups = acc.groups ∧
      (msgLoop routes registered attest now i acc msgs).msgs =
        acc.msgs ++ msgs.map (fun m => (processMsg routes registered attest now m).msg) := by
  intro msgs
  induction msgs with
  | nil => intro i acc _; simp [msgLoop]
  | cons m rest ih =>
      intro i acc hall
      have hm := hall m (List.mem_cons_self m rest)
      have hrest := fun x hx => hall x (List.mem_cons_of_mem m hx)
      have step := ih (i + 1)
        ⟨acc.msgs ++ [(processMsg routes registered attest now m).msg],
          acc.requeue, acc.attestIdxs, acc.groups⟩ hrest
      have hunf : msgLoop routes registered attest now i acc (m :: rest) =
          msgLoop routes registered attest now (i + 1)
            ⟨acc.msgs ++ [(processMsg routes registered attest now m).msg],
              acc.requeue, acc.attestIdxs, acc.groups⟩ rest := by
        simp [msgLoop, hm.1, hm.2.1, hm.2.2]
      rw [hunf]
      refine ⟨step.1, step.2.1, step.2.2.1, ?_⟩
      simp [step.2.2.2, List.append_assoc]

/-- C1 (refuted by the code): a requeued TxState whose messages are all
Attested (after a failed broadcast) is NOT broadcast again.  The next
pass makes no Broadcast call at all, does not requeue, makes no
attestation call, and leaves every message short of Complete: the
attestation step only runs for Created/Pending messages and
`broadcastMsgs` is rebuilt empty, so a message stuck at Attested is
dropped rather than retried until Broadcast succeeds. -/
theorem C1_attested_never_rebroadcast (routes : List (Domain × List Domain))
    (registered : List (Domain × Chain))
    (attest : MessageState → Option AttestationResponse) (now : Nat)
    (store : List (String × TxState)) (dq : TxState) (tx : TxState)
    (hlk : lookupAssoc store dq.txHash = some tx)
    (hall : ∀ m ∈ tx.msgs, m.status = Status.attested) :
    (processorPass routes registered attest now store dq).broadcastCalls = [] ∧
    (processorPass routes registered attest now store dq).requeue = false ∧
    (processorPass routes registered attest now store dq).attestIdxs = [] ∧
    ∀ m ∈ (processorPass routes registered attest now store dq).tx.msgs,
      m.status ≠ Status.complete := by
  have hinert : ∀ m ∈ tx.msgs,
      (processMsg routes registered attest now m).requeueSet = false ∧
      (processMsg routes registered attest now m).attestCalled = false ∧
      (processMsg routes registered attest now m).appended = none := by
    intro m hm
    have h := processMsg_attested routes registered attest now m (hall m hm)
    exact ⟨h.1, h.2.1, h.2.2.1⟩
  have hloop := msgLoop_inert routes registered attest now tx.msgs 0 ⟨[], false, [], []⟩ hinert
  have hpass : processorPass routes registered attest now store dq =
      { store := insertAssoc store dq.txHash
          { tx with msgs := tx.msgs.map (fun m => (processMsg routes registered attest now m).msg) }
        tx :=
          { tx with msgs := tx.msgs.map (fun m => (processMsg routes registered attest now m).msg) }
        requeue := false
        attestIdxs := []
        broadcastCalls := [] } := by
    simp only [processorPass, hlk]
    rw [hloop.2.2.1, broadcastLoop_nil]
    simp [hloop.1, hloop.2.1, hloop.2.2.2]
  refine ⟨by simp [hpass], by simp [hpass], by simp [hpass], ?_⟩
  rw [hpass]
  intro m hm
  simp only [List.mem_map] at hm
  obtain ⟨m0, hm0, hmeq⟩ := hm
  have h := processMsg_attested routes registered attest now m0 (hall m0 hm0)
  rw [← hmeq]
  exact h.2.2.2

theorem C1_attested_never_rebroadcast_witness :
    lookupAssoc storeAttested txAttested.txHash = some txAttested ∧
    (∀ m ∈ txAttested.msgs, m.status = Status.attested) ∧
    (processorPass routesEth2Noble registeredNoble attestNil 0 storeAttested
      txAttested).broadcastCalls = [] ∧
    (processorPass routesEth2Noble registeredNoble attestNil 0 storeAttested
      txAttested).requeue = false := by
  have hall : ∀ m ∈ txAttested.msgs, m.status = Status.attested := by decide
  have h := C1_attested_never_rebroadcast routesEth2Noble registeredNoble attestNil 0
    storeAttested txAttested txAttested rfl hall
  exact ⟨rfl, hall, h.1, h.2.1⟩

theorem lookupAssoc_insertAssoc_self {α : Type} [DecidableEq α] {β : Type}
    (l : List (α × β)) (k : α) (v : β) :
    lookupAssoc (insertAssoc l k v) k = some v := by
  induction l with
  | nil => simp [insertAssoc, lookupAssoc]
  | cons p rest ih =>
      obtain ⟨k0, v0⟩ := p
      by_cases h : k0 = k
      · subst h; simp [insertAssoc, lookupAssoc]
      · simp [insertAssoc, lookupAssoc, h, ih]

theorem FilterDisabledCCTPRoutes_congr (routes : List (Domain × List Domain))
    (m m' : MessageState) (hs : m'.sourceDomain = m.sourceDomain)
    (hd : m'.destDomain = m.destDomain) :
    FilterDisabledCCTPRoutes routes m' = FilterDisabledCCTPRoutes routes m := by
  simp [FilterDisabledCCTPRoutes, hs, hd]

theorem FilterDisabledCCTPRoutes_iff (routes : List (Domain × List Domain))
    (m : MessageState) :
    FilterDisabledCCTPRoutes routes m = true ↔
      (lookupAssoc routes m.sourceDomain = none ∨
        ∃ l, lookupAssoc routes m.sourceDomain = some l ∧ m.destDomain ∉ l) := by
  unfold FilterDisabledCCTPRoutes
  cases h : lookupAssoc routes m.sourceDomain with
  | none => simp [h]
  | some val => simp [h]

theorem processorPass_singleton_inert (routes : List (Domain × List Domain))
    (registered : List (Domain × Chain))
    (attest : MessageState → Option AttestationResponse) (now : Nat)
    (store : List (String × TxState)) (dq : TxState) (t : TxState) (m : MessageState)
    (hlk : lookupAssoc store dq.txHash = some t ∨
      (lookupAssoc store dq.txHash = none ∧
        { dq with msgs := dq.msgs.map (fun x => { x with status := Status.created }) } = t))
    (hm : t.msgs = [m])
    (h1 : (processMsg routes registered attest now m).requeueSet = false)
    (h2 : (processMsg routes registered attest now m).attestCalled = false)
    (h3 : (processMsg routes registered attest now m).appended = none) :
    processorPass routes registered attest now store dq =
      { store := insertAssoc store dq.txHash
          { t with msgs := [(processMsg routes registered attest now m).msg] }
        tx := { t with msgs := [(processMsg routes registered attest now m).msg] }
        requeue := false
        attestIdxs := []
        broadcastCalls := [] } := by
  have hloop := msgLoop_inert routes registered attest now [m] 0 ⟨[], false, [], []⟩
    (by intro x hx; simp at hx; subst hx; exact ⟨h1, h2, h3⟩)
  rcases hlk with hsome | ⟨hnone, hinit⟩
  · simp only [processorPass, hsome]
    rw [hm, hloop.2.2.1, broadcastLoop_nil]
    simp [hloop.1, hloop.2.1, hloop.2.2.2]
  · have hmap : dq.msgs.map (fun x => { x with status := Status.created }) = [m] := by
      have h := congrArg TxState.msgs hinit
      simpa using h.trans hm
    have htx : dq.txHash = t.txHash := by
      have h := congrArg TxState.txHash hinit
      simpa using h
    simp only [processorPass, hnone]
    rw [hmap, hloop.2.2.1, broadcastLoop_nil]
    simp [hloop.1, hloop.2.1, hloop.2.2.2, htx]

theorem iteratePasses_zero (routes : List (Domain × List Domain))
    (registered : List (Domain × Chain))
    (attests : Nat → MessageState → Option AttestationResponse) (nows : Nat → Nat)
    (st : List (String × TxState) × TxState) :
    iteratePasses routes registered attests nows 0 st = st := rfl

theorem iteratePasses_succ (routes : List (Domain × List Domain))
    (registered : List (Domain × Chain))
    (attests : Nat → MessageState → Option AttestationResponse) (nows : Nat → Nat)
    (n : Nat) (st : List (String × TxState) × TxState) :
    iteratePasses routes registered attests nows (n + 1) st =
      ((processorPass routes registered (attests n) (nows n)
          (iteratePasses routes registered attests nows n st).1
          (iteratePasses routes registered attests nows n st).2).store,
       (processorPass routes registered (attests n) (nows n)
          (iteratePasses routes registered attests nows n st).1
          (iteratePasses routes registered attests nows n st).2).tx) := rfl

/-- C3: a message whose source-to-destination route is not enabled
(source domain absent from EnabledRoutes or destination not in its
list) is marked Filtered on the first processor pass; no pass ever
makes an attestation call or a Broadcast call for it, and after every
pass its status is still Filtered — it never reaches Attested or
Complete. -/
theorem C3_disabled_route_filtered (routes : List (Domain × List Domain))
    (registered : List (Domain × Chain))
    (attests : Nat → MessageState → Option AttestationResponse) (nows : Nat → Nat)
    (store : List (String × TxState)) (dq : TxState) (m : MessageState)
    (hdq : dq.msgs = [m])
    (hnew : lookupAssoc store dq.txHash = none)
    (hroute : lookupAssoc routes m.sourceDomain = none ∨
      ∃ l, lookupAssoc routes m.sourceDomain = some l ∧ m.destDomain ∉ l) :
    (∀ n,
      (processorPass routes registered (attests n) (nows n)
        (iteratePasses routes registered attests nows n (store, dq)).1
        (iteratePasses routes registered attests nows n (store, dq)).2).attestIdxs = [] ∧
      (processorPass routes registered (attests n) (nows n)
        (iteratePasses routes registered attests nows n (store, dq)).1
        (iteratePasses routes registered attests nows n (store, dq)).2).broadcastCalls = []) ∧
    (∀ n, (iteratePasses routes registered attests nows (n + 1) (store, dq)).2.msgs.map
        (fun x => x.status) = [Status.filtered]) := by
  have hf : FilterDisabledCCTPRoutes routes m = true :=
    (FilterDisabledCCTPRoutes_iff routes m).mpr hroute
  have hinert : ∀ (attest : MessageState → Option AttestationResponse) (now : Nat)
      (x : MessageState),
      (FilterDisabledCCTPRoutes routes x = true ∨ x.status = Status.filtered) →
      (processMsg routes registered attest now x).requeueSet = false ∧
      (processMsg routes registered attest now x).attestCalled = false ∧
      (processMsg routes registered attest now x).appended = none ∧
      (processMsg routes registered attest now x).msg.status = Status.filtered := by
    intro attest now x hx
    rcases hx with hx | hx
    · have hp := processMsg_filterTrue routes registered attest now x (by simp [hx])
      simp [hp]
    · have h := processMsg_filtered_absorbing routes registered attest now x hx
      exact ⟨h.2.1, h.2.2.1, h.2.2.2, h.1⟩
  have hfC : FilterDisabledCCTPRoutes routes { m with status := Status.created } = true := by
    rw [FilterDisabledCCTPRoutes_congr routes m { m with status := Status.created } rfl rfl]
    exact hf
  have hi0 := hinert (attests 0) (nows 0) { m with status := Status.created } (Or.inl hfC)
  have hinit : { dq with msgs := dq.msgs.map (fun x => { x with status := Status.created }) } =
      TxState.mk dq.txHash [{ m with status := Status.created }] := by
    simp [hdq]
  have pass0 : processorPass routes registered (attests 0) (nows 0) store dq =
      { store := insertAssoc store dq.txHash
          (TxState.mk dq.txHash
            [(processMsg routes registered (attests 0) (nows 0)
                { m with status := Status.created }).msg])
        tx := TxState.mk dq.txHash
          [(processMsg routes registered (attests 0) (nows 0)
              { m with status := Status.created }).msg]
        requeue := false
        attestIdxs := []
        broadcastCalls := [] } := by
    have hp := processorPass_singleton_inert routes registered (attests 0) (nows 0) store dq
      (TxState.mk dq.txHash [{ m with status := Status.created }])
      { m with status := Status.created }
      (Or.inr ⟨hnew, hinit⟩) rfl hi0.1 hi0.2.1 hi0.2.2.1
    simpa using hp
  have passInv : ∀ (j : Nat) (store' : List (String × TxState)) (m' : MessageState),
      lookupAssoc store' dq.txHash = some (TxState.mk dq.txHash [m']) →
      m'.status = Status.filtered →
      processorPass routes registered (attests j) (nows j) store' (TxState.mk dq.txHash [m']) =
        { store := insertAssoc store' dq.txHash
            (TxState.mk dq.txHash
              [(processMsg routes registered (attests j) (nows j) m').msg])
          tx := TxState.mk dq.txHash
            [(processMsg routes registered (attests j) (nows j) m').msg]
          requeue := false
          attestIdxs := []
          broadcastCalls := [] } := by
    intro j store' m' hlk hst
    have hi := hinert (attests j) (nows j) m' (Or.inr hst)
    have hp := processorPass_singleton_inert routes registered (attests j) (nows j) store'
      (TxState.mk dq.txHash [m']) (TxState.mk dq.txHash [m']) m'
      (Or.inl hlk) rfl hi.1 hi.2.1 hi.2.2.1
    simpa using hp
  have key : ∀ n, ∃ store' m',
      iteratePasses routes registered attests nows (n + 1) (store, dq) =
        (store', TxState.mk dq.txHash [m']) ∧
      lookupAssoc store' dq.txHash = some (TxState.mk dq.txHash [m']) ∧
      m'.status = Status.filtered := by
    intro n
    induction n with
    | zero =>
        refine ⟨insertAssoc store dq.txHash
            (TxState.mk dq.txHash
              [(processMsg routes registered (attests 0) (nows 0)
                  { m with status := Status.created }).msg]),
          (processMsg routes registered (attests 0) (nows 0)
            { m with status := Status.created }).msg, ?_, ?_, hi0.2.2.2⟩
        · rw [iteratePasses_succ, iteratePasses_zero]
          simp [pass0]
        · exact lookupAssoc_insertAssoc_self store dq.txHash _
    | succ k ih =>
        obtain ⟨store', m', hiter, hlk, hst⟩ := ih
        have hp := passInv (k + 1) store' m' hlk hst
        refine ⟨insertAssoc store' dq.txHash
            (TxState.mk dq.txHash
              [(processMsg routes registered (attests (k + 1)) (nows (k + 1)) m').msg]),
          (processMsg routes registered (attests (k + 1)) (nows (k + 1)) m').msg,
          ?_, ?_, (hinert (attests (k + 1)) (nows (k + 1)) m' (Or.inr hst)).2.2.2⟩
        · rw [iteratePasses_succ, hiter]
          simp [hp]
        · exact lookupAssoc_insertAssoc_self store' dq.txHash _
  refine ⟨?_, ?_⟩
  · intro n
    cases n with
    | zero =>
        rw [iteratePasses_zero]
        simp [pass0]
    | succ k =>
        obtain ⟨store', m', hiter, hlk, hst⟩ := key k
        rw [hiter]
        have hp := passInv (k + 1) store' m' hlk hst
        simp [hp]
  · intro n
    obtain ⟨store', m', hiter, _, hst⟩ := key n
    rw [hiter]
    simp [hst]

theorem C3_disabled_route_filtered_witness :
    (lookupAssoc routesEth2Noble msgWrongRoute.sourceDomain = some [4] ∧
      msgWrongRoute.destDomain ∉ [4]) ∧
    (iteratePasses routesEth2Noble registeredNoble (fun _ => attestNil) (fun _ => 0) 1
      ([], txWrongRoute)).2.msgs.map (fun x => x.status) = [Status.filtered] ∧
    (processorPass routesEth2Noble registeredNoble attestNil 0 [] txWrongRoute).attestIdxs
      = [] := by
  have h := C3_disabled_route_filtered routesEth2Noble registeredNoble
    (fun _ => attestNil) (fun _ => 0) [] txWrongRoute msgWrongRoute rfl rfl
    (Or.inr ⟨[4], rfl, by decide⟩)
  exact ⟨⟨rfl, by decide⟩, h.2 0, (h.1 0).1⟩

/-- C8 (claim right, code wrong): requesting a tx hash that is absent
from the StateStore with a `domain` query parameter makes the handler
dereference the nil TxState (`tx.Msgs[0]` with `tx = nil`), a panic —
not the 404 `{"message":"message not found"}` the spec documents.
Without the domain parameter the absent hash does yield 404. -/
theorem C8_missing_hash_with_domain_panics :
    getTxByHash [] "deadbeef" "0" = HandlerOutcome.panicked [] ∧
    getTxByHash [] "deadbeef" "" = HandlerOutcome.responded [HttpWrite.notFound] := by
  exact ⟨rfl, rfl⟩

theorem processAttrs_isSome (b64decode : String → Option (List Nat))
    (parse : List Nat → Option Message) (keccak : List Nat → List Nat)
    (hash : String) (now : Nat) :
    ∀ (attrs : List EventAttr) (acc : List MessageState × Bool),
      (∀ a ∈ attrs, a.key = "message" → 2 ≤ a.value.length) →
      (processAttrs b64decode parse keccak hash now attrs acc).isSome := by
  intro attrs
  induction attrs with
  | nil => intro acc _; simp [processAttrs]
  | cons a rest ih =>
      intro acc hall
      have hrest : ∀ x ∈ rest, x.key = "message" → 2 ≤ x.value.length :=
        fun x hx => hall x (List.mem_cons_of_mem a hx)
      by_cases hk : a.key = "message"
      · have hlen := hall a (List.mem_cons_self a rest) hk
        have hnlt : ¬(a.value.length < 2) := by omega
        simp only [processAttrs, if_pos hk, if_neg hnlt]
        split
        · exact ih acc hrest
        · split
          · exact ih acc hrest
          · exact ih _ hrest
      · simp only [processAttrs, if_neg hk]
        exact ih acc hrest

theorem processEvents_ne_panicked (b64decode : String → Option (List Nat))
    (parse : List Nat → Option Message) (keccak : List Nat → List Nat)
    (hash : String) (now : Nat) :
    ∀ (evs : List TxEvent) (msgs : List MessageState),
      (∀ e ∈ evs, e.type = "circle.cctp.v1.MessageSent" →
        ∀ a ∈ e.attributes, a.key = "message" → 2 ≤ a.value.length) →
      processEvents b64decode parse keccak hash now evs msgs ≠ TxOutcome.panicked := by
  intro evs
  induction evs with
  | nil => intro msgs _; simp [processEvents]
  | cons e rest ih =>
      intro msgs hall
      have hrest : ∀ x ∈ rest, x.type = "circle.cctp.v1.MessageSent" →
          ∀ a ∈ x.attributes, a.key = "message" → 2 ≤ a.value.length :=
        fun x hx => hall x (List.mem_cons_of_mem e hx)
      by_cases ht : e.type = "circle.cctp.v1.MessageSent"
      · have hs := processAttrs_isSome b64decode parse keccak hash now e.attributes ([], false)
          (hall e (List.mem_cons_self e rest) ht)
        obtain ⟨p, hp⟩ := Option.isSome_iff_exists.mp hs
        obtain ⟨newMsgs, parsed⟩ := p
        simp only [processEvents, if_pos ht, hp]
        cases parsed with
        | true => simpa using ih (msgs ++ newMsgs) hrest
        | false => simp
      · simp only [processEvents, if_neg ht]
        exact ih msgs hrest

/-- C10: `txToMessageState` panics on a `"message"` attribute whose
value is shorter than 2 bytes (the `attr.Value[1 : len(attr.Value)-1]`
slice is out of range, e.g. for an empty value), and is panic-free
whenever every `"message"` attribute of every MessageSent event has a
value of length at least 2. -/
theorem C10_slice_panic_precondition :
    (∀ (b64decode : String → Option (List Nat)) (parse : List Nat → Option Message)
        (keccak : List Nat → List Nat) (now : Nat) (tx : ResultTx),
      (∀ e ∈ tx.txResult.events, e.type = "circle.cctp.v1.MessageSent" →
        ∀ a ∈ e.attributes, a.key = "message" → 2 ≤ a.value.length) →
      txToMessageState b64decode parse keccak now tx ≠ TxOutcome.panicked) ∧
    txToMessageState b64Nil parseNil keccakFix 0 txEmptyAttr = TxOutcome.panicked := by
  constructor
  · intro b64decode parse keccak now tx hall
    by_cases hc : tx.txResult.code ≠ 0
    · simp [txToMessageState, hc]
    · simp only [txToMessageState, if_neg hc]
      exact processEvents_ne_panicked b64decode parse keccak tx.hash now
        tx.txResult.events [] hall
  · rfl

theorem C10_slice_panic_precondition_witness :
    (∀ e ∈ txOneEvent.txResult.events, e.type = "circle.cctp.v1.MessageSent" →
      ∀ a ∈ e.attributes, a.key = "message" → 2 ≤ a.value.length) ∧
    txToMessageState b64G parseOnly1 keccakFix 0 txOneEvent ≠ TxOutcome.panicked := by
  refine ⟨by decide, ?_⟩
  exact C10_slice_panic_precondition.1 b64G parseOnly1 keccakFix 0 txOneEvent (by decide)

theorem hexDigit_lower :
    ∀ i : Fin 16, ('0' ≤ hexDigit i.val ∧ hexDigit i.val ≤ '9') ∨
      ('a' ≤ hexDigit i.val ∧ hexDigit i.val ≤ 'f') := by
  decide

theorem hexEncode_lower (bs : List Nat) :
    ∀ c ∈ (hexEncode bs).toList,
      ('0' ≤ c ∧ c ≤ '9') ∨ ('a' ≤ c ∧ c ≤ 'f') := by
  intro c hc
  have hc' : c ∈ List.flatten (bs.map fun b => [hexDigit (b / 16 % 16), hexDigit (b % 16)]) := hc
  rw [List.mem_flatten] at hc'
  obtain ⟨l, hl, hcl⟩ := hc'
  rw [List.mem_map] at hl
  obtain ⟨b, _, hlb⟩ := hl
  rw [← hlb] at hcl
  have h16a : b / 16 % 16 < 16 := Nat.mod_lt _ (by omega)
  have h16b : b % 16 < 16 := Nat.mod_lt _ (by omega)
  simp only [List.mem_cons, List.not_mem_nil, or_false] at hcl
  rcases hcl with hce | hce <;> rw [hce]
  · simpa using hexDigit_lower ⟨b / 16 % 16, h16a⟩
  · simpa using hexDigit_lower ⟨b % 16, h16b⟩

theorem processAttrs_invariant (b64decode : String → Option (List Nat))
    (parse : List Nat → Option Message) (keccak : List Nat → List Nat)
    (hash : String) (now : Nat) :
    ∀ (attrs : List EventAttr) (acc out : List MessageState × Bool),
      processAttrs b64decode parse keccak hash now attrs acc = some out →
      (∀ ms ∈ acc.1, ms.irisLookupId = hexEncode (keccak ms.msgSentBytes) ∧
        ms.sourceTxHash = hash ∧ ms.status = Status.created) →
      ∀ ms ∈ out.1, ms.irisLookupId = hexEncode (keccak ms.msgSentBytes) ∧
        ms.sourceTxHash = hash ∧ ms.status = Status.created := by
  intro attrs
  induction attrs with
  | nil =>
      intro acc out hout hacc
      simp only [processAttrs, Option.some.injEq] at hout
      rw [← hout]
      exact hacc
  | cons a rest ih =>
      intro acc out hout hacc
      by_cases hk : a.key = "message"
      · by_cases hlt : a.value.length < 2
        · simp [processAttrs, hk, hlt] at hout
        · simp only [processAttrs, if_pos hk, if_neg hlt] at hout
          split at hout
          · exact ih acc out hout hacc
          · split at hout
            · exact ih acc out hout hacc
            · refine ih _ out hout ?_
              intro ms hms
              rw [List.mem_append] at hms
              rcases hms with hms | hms
              · exact hacc ms hms
              · rw [List.mem_singleton] at hms
                subst hms
                exact ⟨rfl, rfl, rfl⟩
      · simp only [processAttrs, if_neg hk] at hout
        exact ih acc out hout hacc

theorem processEvents_invariant (b64decode : String → Option (List Nat))
    (parse : List Nat → Option Message) (keccak : List Nat → List Nat)
    (hash : String) (now : Nat) :
    ∀ (evs : List TxEvent) (msgs0 msgs : List MessageState),
      processEvents b64decode parse keccak hash now evs msgs0 = TxOutcome.ok msgs →
      (∀ ms ∈ msgs0, ms.irisLookupId = hexEncode (keccak ms.msgSentBytes) ∧
        ms.sourceTxHash = hash ∧ ms.status = Status.created) →
      ∀ ms ∈ msgs, ms.irisLookupId = hexEncode (keccak ms.msgSentBytes) ∧
        ms.sourceTxHash = hash ∧ ms.status = Status.created := by
  intro evs
  induction evs with
  | nil =>
      intro msgs0 msgs hout hacc
      simp only [processEvents, TxOutcome.ok.injEq] at hout
      rw [← hout]
      exact hacc
  | cons e rest ih =>
      intro msgs0 msgs hout hacc
      by_cases ht : e.type = "circle.cctp.v1.MessageSent"
      · simp only [processEvents, if_pos ht] at hout
        cases hp : processAttrs b64decode parse keccak hash now e.attributes ([], false) with
        | none => rw [hp] at hout; simp at hout
        | some p =>
            obtain ⟨newMsgs, parsed⟩ := p
            rw [hp] at hout
            cases parsed with
            | true =>
                simp only [if_true] at hout
                refine ih (msgs0 ++ newMsgs) msgs hout ?_
                intro ms hms
                rw [List.mem_append] at hms
                rcases hms with hms | hms
                · exact hacc ms hms
                · exact processAttrs_invariant b64decode parse keccak hash now
                    e.attributes ([], false) (newMsgs, true) hp (by simp) ms hms
            | false => simp at hout
      · simp only [processEvents, if_neg ht] at hout
        exact ih msgs0 msgs hout hacc

/-- C6: every MessageState emitted by the Noble listener comes from a
transaction with result code 0 (nonzero-code transactions yield no
MessageStates and no error), carries
`IrisLookupId = hex(keccak256(MsgSentBytes))` written with lowercase
hex digits, `SourceTxHash` equal to the transaction hash, and initial
status Created. -/
theorem C6_noble_message_invariants (b64decode : String → Option (List Nat))
    (parse : List Nat → Option Message) (keccak : List Nat → List Nat)
    (now : Nat) (tx : ResultTx) :
    (tx.txResult.code ≠ 0 → txToMessageState b64decode parse keccak now tx = TxOutcome.ok []) ∧
    (∀ msgs, txToMessageState b64decode parse keccak now tx = TxOutcome.ok msgs →
      ∀ ms ∈ msgs, ms.irisLookupId = hexEncode (keccak ms.msgSentBytes) ∧
        ms.sourceTxHash = tx.hash ∧ ms.status = Status.created ∧
        ∀ c ∈ ms.irisLookupId.toList, ('0' ≤ c ∧ c ≤ '9') ∨ ('a' ≤ c ∧ c ≤ 'f')) := by
  constructor
  · intro hc
    simp [txToMessageState, hc]
  · intro msgs hok ms hms
    by_cases hc : tx.txResult.code ≠ 0
    · rw [txToMessageState, if_pos hc] at hok
      injection hok with hok
      rw [← hok] at hms
      simp at hms
    · simp only [txToMessageState, if_neg hc] at hok
      have h := processEvents_invariant b64decode parse keccak tx.hash now
        tx.txResult.events [] msgs hok (by simp) ms hms
      refine ⟨h.1, h.2.1, h.2.2, ?_⟩
      rw [h.1]
      exact hexEncode_lower (keccak ms.msgSentBytes)

theorem C6_noble_message_invariants_witness :
    txToMessageState b64G parseOnly1 keccakFix 0 txOneEvent = TxOutcome.ok [msgNobleG] ∧
    msgNobleG.irisLookupId = hexEncode (keccakFix msgNobleG.msgSentBytes) ∧
    msgNobleG.sourceTxHash = txOneEvent.hash ∧
    msgNobleG.status = Status.created := by
  have hok : txToMessageState b64G parseOnly1 keccakFix 0 txOneEvent =
      TxOutcome.ok [msgNobleG] := by rfl
  have h := (C6_noble_message_invariants b64G parseOnly1 keccakFix 0 txOneEvent).2
    [msgNobleG] hok msgNobleG (by simp)
  exact ⟨hok, h.1, h.2.1, h.2.2.1⟩

/-- C5 (refuted for the Noble listener): a tx whose first MessageSent
event parses fine and whose second MessageSent event has no parseable
attribute returns an error with NO MessageStates at all — the parse
failure of one event discards the sibling event's parsed message.
Alone, the first event parses to `msgNobleG`. -/
theorem C5_event_failure_discards_siblings :
    txToMessageState b64G parseOnly1 keccakFix 0 txOneEvent = TxOutcome.ok [msgNobleG] ∧
    txToMessageState b64G parseOnly1 keccakFix 0 txTwoEvents = TxOutcome.errored := by
  exact ⟨rfl, rfl⟩

/-- C5 (amended): in the EVM listener a log that fails to parse is
skipped and never affects the other logs' TxStates; in the Noble
listener an attribute whose base64 decode or CCTP parse fails is
skipped without affecting sibling attributes of the same event.  (A
MessageSent event in which NO attribute parses still fails the whole
transaction — see the counterexample.) -/
theorem C5_parse_failure_skip_amended :
    (∀ (parse : EvmLog → Option MessageState) (l : EvmLog) (ls1 ls2 : List EvmLog),
      parse l = none →
      consumeHistroy parse (ls1 ++ l :: ls2) = consumeHistroy parse (ls1 ++ ls2)) ∧
    (∀ (b64decode : String → Option (List Nat)) (parse : List Nat → Option Message)
        (keccak : List Nat → List Nat) (hash : String) (now : Nat)
        (attr : EventAttr) (rest : List EventAttr) (acc : List MessageState × Bool),
      attr.key = "message" → 2 ≤ attr.value.length →
      b64decode (String.mk (attr.value.toList.drop 1).dropLast) = none →
      processAttrs b64decode parse keccak hash now (attr :: rest) acc =
        processAttrs b64decode parse keccak hash now rest acc) ∧
    (∀ (b64decode : String → Option (List Nat)) (parse : List Nat → Option Message)
        (keccak : List Nat → List Nat) (hash : String) (now : Nat)
        (attr : EventAttr) (rest : List EventAttr) (acc : List MessageState × Bool)
        (raw : List Nat),
      attr.key = "message" → 2 ≤ attr.value.length →
      b64decode (String.mk (attr.value.toList.drop 1).dropLast) = some raw →
      parse raw = none →
      processAttrs b64decode parse keccak hash now (attr :: rest) acc =
        processAttrs b64decode parse keccak hash now rest acc) := by
  refine ⟨?_, ?_, ?_⟩
  · intro parse l ls1 ls2 hnone
    induction ls1 with
    | nil => simp [consumeHistroy, hnone]
    | cons l0 rest ih =>
        cases hp : parse l0 <;> simp [consumeHistroy, hp, ih]
  · intro b64decode parse keccak hash now attr rest acc hk hlen hb
    have hnlt : ¬(attr.value.length < 2) := by omega
    simp only [processAttrs, if_pos hk, if_neg hnlt, hb]
  · intro b64decode parse keccak hash now attr rest acc raw hk hlen hb hp
    have hnlt : ¬(attr.value.length < 2) := by omega
    simp only [processAttrs, if_pos hk, if_neg hnlt, hb, hp]

theorem C5_parse_failure_skip_amended_witness :
    parseEvmSkipBad logBad = none ∧
    consumeHistroy parseEvmSkipBad ([logHistA] ++ logBad :: [logHistB]) =
      consumeHistroy parseEvmSkipBad ([logHistA] ++ [logHistB]) ∧
    b64G (String.mk (attrBadB64.value.toList.drop 1).dropLast) = none ∧
    processAttrs b64G parseOnly1 keccakFix "h" 0 [attrBadB64, attrGoodG] ([], false) =
      processAttrs b64G parseOnly1 keccakFix "h" 0 [attrGoodG] ([], false) := by
  refine ⟨rfl, ?_, rfl, ?_⟩
  · exact C5_parse_failure_skip_amended.1 parseEvmSkipBad logBad [logHistA] [logHistB] rfl
  · exact C5_parse_failure_skip_amended.2.1 b64G parseOnly1 keccakFix "h" 0 attrBadB64
      [attrGoodG] ([], false) rfl (by decide) rfl

/-- C4 (refuted for the backfill): two historical logs of the SAME
source transaction are enqueued as two separate single-message
TxStates by `consumeHistroy` — they are not grouped into one TxState. -/
theorem C4_history_not_grouped :
    logHistA.txHash = logHistB.txHash ∧
    consumeHistroy parseEvmFix [logHistA, logHistB] =
      [TxState.mk "0xsametx" [mHistA], TxState.mk "0xsametx" [mHistB]] := by
  exact ⟨rfl, rfl⟩

theorem consumeStreamGo_accum (parse : EvmLog → Option MessageState) :
    ∀ (ls : List EvmLog) (msgs : List MessageState) (cur : TxState) (queue : List TxState),
      ls.map parse = msgs.map some →
      (∀ m ∈ msgs, m.sourceTxHash = cur.txHash) →
      consumeStreamGo parse (some cur) queue (ls.map some ++ [none]) =
        (queue ++ [{ cur with msgs := cur.msgs ++ msgs }], none) := by
  intro ls
  induction ls with
  | nil =>
      intro msgs cur queue hmap _
      have hmsgs : msgs = [] := by
        cases msgs with
        | nil => rfl
        | cons m rest => simp at hmap
      subst hmsgs
      simp [consumeStreamGo]
  | cons l ls' ih =>
      intro msgs cur queue hmap hall
      cases msgs with
      | nil => simp at hmap
      | cons m msgs' =>
          simp only [List.map_cons, List.cons.injEq] at hmap
          obtain ⟨hpl, hmap'⟩ := hmap
          have h1 : m.sourceTxHash = cur.txHash := hall m (List.mem_cons_self m msgs')
          have hall' : ∀ x ∈ msgs',
              x.sourceTxHash = ({ cur with msgs := cur.msgs ++ [m] } : TxState).txHash :=
            fun x hx => hall x (List.mem_cons_of_mem m hx)
          have hstep := ih msgs' { cur with msgs := cur.msgs ++ [m] } queue hmap' hall'
          simp only [List.map_cons, List.cons_append, consumeStreamGo, hpl]
          rw [if_neg (by simp [h1])]
          simp only [List.append_eq]
          rw [hstep]
          simp [List.append_assoc]

/-- C4 (amended): the live-stream consumer does group consecutive
same-hash events into one TxState — a run of logs with one tx hash
followed by an idle `default` tick yields exactly one TxState carrying
all of the messages in order, and an event with a different hash
flushes the buffered TxState — but the historical backfill does NOT
group: every TxState emitted by `consumeHistroy` holds exactly one
message. -/
theorem C4_stream_groups_history_does_not :
    (∀ (parse : EvmLog → Option MessageState) (ls : List EvmLog)
        (msgs : List MessageState) (h : String),
      ls.map parse = msgs.map some →
      (∀ m ∈ msgs, m.sourceTxHash = h) → msgs ≠ [] →
      consumeStreamGo parse none [] (ls.map some ++ [none]) =
        ([TxState.mk h msgs], none)) ∧
    (∀ (parse : EvmLog → Option MessageState) (cur : TxState) (queue : List TxState)
        (l : EvmLog) (m : MessageState) (rest : List (Option EvmLog)),
      parse l = some m → m.sourceTxHash ≠ cur.txHash →
      consumeStreamGo parse (some cur) queue (some l :: rest) =
        consumeStreamGo parse (some (TxState.mk m.sourceTxHash [m])) (queue ++ [cur]) rest) ∧
    (∀ (parse : EvmLog → Option MessageState) (ls : List EvmLog) (ts : TxState),
      ts ∈ consumeHistroy parse ls → ∃ m, ts = TxState.mk m.sourceTxHash [m]) := by
  refine ⟨?_, ?_, ?_⟩
  · intro parse ls msgs h hmap hall hne
    cases msgs with
    | nil => exact absurd rfl hne
    | cons m0 rest =>
        cases ls with
        | nil => simp at hmap
        | cons l0 ls' =>
            simp only [List.map_cons, List.cons.injEq] at hmap
            obtain ⟨hp0, hmap'⟩ := hmap
            have h0 : m0.sourceTxHash = h := hall m0 (List.mem_cons_self m0 rest)
            have hall' : ∀ x ∈ rest,
                x.sourceTxHash = (TxState.mk m0.sourceTxHash [m0]).txHash := by
              intro x hx
              have := hall x (List.mem_cons_of_mem m0 hx)
              simp [this, h0]
            have hacc := consumeStreamGo_accum parse ls' rest
              (TxState.mk m0.sourceTxHash [m0]) [] hmap' hall'
            simp only [List.map_cons, List.cons_append, consumeStreamGo, hp0]
            simp only [List.append_eq] at hacc ⊢
            rw [hacc]
            simp [h0]
  · intro parse cur queue l m rest hp hne
    simp only [consumeStreamGo, hp]
    rw [if_pos hne]
  · intro parse ls
    induction ls with
    | nil => intro ts hts; simp [consumeHistroy] at hts
    | cons l rest ih =>
        intro ts hts
        cases hp : parse l with
        | none =>
            rw [consumeHistroy, hp] at hts
            exact ih ts hts
        | some m =>
            rw [consumeHistroy, hp] at hts
            rcases List.mem_cons.mp hts with hts | hts
            · exact ⟨m, hts⟩
            · exact ih ts hts

theorem C4_stream_groups_history_does_not_witness :
    [logHistA, logHistB].map parseEvmFix = [mHistA, mHistB].map some ∧
    consumeStreamGo parseEvmFix none [] ([logHistA, logHistB].map some ++ [none]) =
      ([TxState.mk "0xsametx" [mHistA, mHistB]], none) := by
  refine ⟨rfl, ?_⟩
  exact C4_stream_groups_history_does_not.1 parseEvmFix [logHistA, logHistB]
    [mHistA, mHistB] "0xsametx" rfl (by decide) (by decide)

/-- C7 (refuted at the boundary): with configured start block 5,
lookback 0, and latest block 5, the claimed range
`[start - lookback, latestBlock] = [5, 5]` contains block 5, yet the
`for start < end` loop issues no query at all, so block 5 is not
covered by the backfill. -/
theorem C7_boundary_not_covered :
    backfillRange 5 5 0 = (5, 5) ∧
    historyQueries 1000 5 5 = [] ∧
    coversBlock (historyQueries 1000 5 5) 5 = false := by
  refine ⟨by decide, rfl, rfl⟩

theorem historyQueries_cover (endBlock : Nat) (he : endBlock + chunkSize < U64) :
    ∀ (fuel s b : Nat), endBlock - s ≤ fuel →
      (coversBlock (historyQueries fuel s endBlock) b = true ↔
        s ≤ b ∧ b ≤ endBlock ∧ s < endBlock) := by
  have hc : chunkSize = 100 := rfl
  have hu : U64 = 18446744073709551616 := by norm_num [U64]
  intro fuel
  induction fuel with
  | zero =>
      intro s b hf
      simp only [historyQueries, coversBlock, List.any_nil, Bool.false_eq_true, false_iff]
      omega
  | succ fuel ih =>
      intro s b hf
      by_cases hse : s < endBlock
      · have hmod : (s + chunkSize) % U64 = s + chunkSize := Nat.mod_eq_of_lt (by omega)
        simp only [historyQueries, if_pos hse, hmod]
        have hrest := ih (s + chunkSize) b (by omega)
        simp only [coversBlock, List.any_cons, Bool.or_eq_true, Bool.and_eq_true,
          decide_eq_true_eq] at hrest ⊢
        rw [hrest]
        split_ifs with hcap <;> omega
      · simp only [historyQueries, if_neg hse, coversBlock, List.any_nil,
          Bool.false_eq_true, false_iff]
        omega

theorem historyQueries_span (endBlock : Nat) (he : endBlock + chunkSize < U64) :
    ∀ (fuel s : Nat), ∀ q ∈ historyQueries fuel s endBlock,
      q.1 < q.2 ∧ q.2 ≤ q.1 + chunkSize := by
  have hc : chunkSize = 100 := rfl
  have hu : U64 = 18446744073709551616 := by norm_num [U64]
  intro fuel
  induction fuel with
  | zero => intro s q hq; simp [historyQueries] at hq
  | succ fuel ih =>
      intro s q hq
      by_cases hse : s < endBlock
      · have hmod : (s + chunkSize) % U64 = s + chunkSize := Nat.mod_eq_of_lt (by omega)
        simp only [historyQueries, if_pos hse, hmod] at hq
        rcases List.mem_cons.mp hq with hq | hq
        · subst hq
          constructor <;> (simp only; split_ifs with hcap <;> omega)
        · exact ih (s + chunkSize) q hq
      · simp [historyQueries, if_neg hse] at hq

/-- C7 (amended): provided no uint64 wraparound occurs — the lookback
period does not exceed the start block and `latestBlock + 100`
fits in a uint64 — the chunked backfill covers a block `b` exactly
when `start - lookback ≤ b ≤ latestBlock` AND `start - lookback <
latestBlock`; each issued query spans at most 100 block numbers
(`toBlock ≤ fromBlock + 100`).  When `start - lookback = latestBlock`
no query is issued at all, and for wrapping parameter values the loop
queries outside the range, so the unrestricted claim fails. -/
theorem C7_backfill_coverage_amended (startBlock latestBlock lookbackPeriod fuel : Nat)
    (hsb : startBlock < U64)
    (hlatest : latestBlock + chunkSize < U64)
    (hlb : lookbackPeriod ≤ (if startBlock ≠ 0 then startBlock else latestBlock))
    (hfuel : latestBlock -
      ((if startBlock ≠ 0 then startBlock else latestBlock) - lookbackPeriod) ≤ fuel) :
    backfillRange startBlock latestBlock lookbackPeriod =
      ((if startBlock ≠ 0 then startBlock else latestBlock) - lookbackPeriod, latestBlock) ∧
    (∀ b, coversBlock (historyQueries fuel
        ((if startBlock ≠ 0 then startBlock else latestBlock) - lookbackPeriod)
        latestBlock) b = true ↔
      ((if startBlock ≠ 0 then startBlock else latestBlock) - lookbackPeriod ≤ b ∧
        b ≤ latestBlock ∧
        (if startBlock ≠ 0 then startBlock else latestBlock) - lookbackPeriod <
          latestBlock)) ∧
    (∀ q ∈ historyQueries fuel
        ((if startBlock ≠ 0 then startBlock else latestBlock) - lookbackPeriod) latestBlock,
      q.1 < q.2 ∧ q.2 ≤ q.1 + chunkSize) := by
  have hc : chunkSize = 100 := rfl
  have hu : U64 = 18446744073709551616 := by norm_num [U64]
  have hstart : (if startBlock ≠ 0 then startBlock else latestBlock) < U64 := by
    split_ifs <;> omega
  refine ⟨?_, ?_, ?_⟩
  · unfold backfillRange
    dsimp only
    have heq : (if startBlock ≠ 0 then startBlock else latestBlock) + U64 - lookbackPeriod =
        ((if startBlock ≠ 0 then startBlock else latestBlock) - lookbackPeriod) + U64 := by
      omega
    rw [heq, Nat.add_mod_right, Nat.mod_eq_of_lt (by omega)]
  · intro b
    exact historyQueries_cover latestBlock hlatest fuel _ b hfuel
  · exact historyQueries_span latestBlock hlatest fuel _

theorem C7_backfill_coverage_amended_witness :
    backfillRange 1000 1200 50 = (950, 1200) ∧
    coversBlock (historyQueries 250 950 1200) 1000 = true ∧
    coversBlock (historyQueries 250 950 1200) 1300 = false := by
  have h := C7_backfill_coverage_amended 1000 1200 50 250 (by norm_num [U64])
    (by norm_num [U64, chunkSize]) (by norm_num) (by norm_num)
  refine ⟨by simpa using h.1, ?_, ?_⟩
  · exact (h.2.1 1000).mpr (by norm_num)
  · cases hcb : coversBlock (historyQueries 250 950 1200) 1300 with
    | false => rfl
    | true =>
        have hx := (h.2.1 1300).mp hcb
        exact absurd hx.2.1 (by norm_num)
